import Mathlib

/-!
Verification of the boss-timer core logic of `L9bossTimer.py`.

Embedding conventions:

* Timestamps are `Int` seconds since an epoch placed at a Monday 00:00:00
  in the fixed local timezone (`Asia/Manila`, a fixed-offset zone with no
  DST, so local wall-clock time is linear in absolute time and every
  aware datetime is faithfully represented by its local second count).
  The weekday of a timestamp `t` is `(t / 86400) % 7` with Monday = 0,
  exactly Python's `datetime.weekday()` numbering.  Lean's `Int`
  division/modulus are Euclidean, which agrees with Python's floor
  division/modulus for the positive divisors (86400, 7) used here.
* `datetime.max` (the "indefinite" sentinel) is the second count of
  9999-12-31 23:59:59 from the Monday epoch 0001-01-01.
* Python exceptions are modelled by `Option`/result types: a raised
  exception is `none`.
* Python `dict`s keyed by strings are association lists that keep
  insertion order, as Python dicts do; `dict.get` is `lookupA`.
-/

/-- Association-list lookup, modelling Python `dict[k]` / `dict.get(k)`. -/
def lookupA {α : Type} : List (String × α) → String → Option α
  | [], _ => none
  | p :: rest, k => if p.1 = k then some p.2 else lookupA rest k

/-- Association-list value update at an existing key, modelling Python's
`d[k] = v` on a key already present (order and other keys unchanged). -/
def updateA {α : Type} (l : List (String × α)) (k : String) (v : α) :
    List (String × α) :=
  l.map (fun p => if p.1 = k then (p.1, v) else p)

/-- The per-boss mutable record stored in `boss_data[gid][name]`: the three
mutable fields plus the catalog fields copied in by `ensure_guild`
(`respawn_hours` / `schedule` are optional keys of the Python dict). -/
structure BossState where
  next_spawn : Option Int
  auto : Bool
  skipped : Bool
  respawn_hours : Option Int
  schedule : Option (List (String × String))
deriving Repr, DecidableEq

/-- The value of `boss_data[gid].get(boss_name, {})` when the name is absent:
an empty dict, on which every `.get` returns `None` and `in` is false. -/
def emptyState : BossState :=
  { next_spawn := none, auto := false, skipped := false,
    respawn_hours := none, schedule := none }

/-- One entry of the static `default_bosses` catalog. -/
structure CatalogEntry where
  respawn_hours : Option Int := none
  schedule : Option (List (String × String)) := none
deriving Repr, DecidableEq

/-- The static boss catalog `default_bosses`, in source order. -/
def default_bosses : List (String × CatalogEntry) :=
  [ ("Venatus", { respawn_hours := some 10 }),
    ("Viorent", { respawn_hours := some 10 }),
    ("Ego", { respawn_hours := some 21 }),
    ("Livera", { respawn_hours := some 24 }),
    ("Araneo", { respawn_hours := some 24 }),
    ("Undomiel", { respawn_hours := some 24 }),
    ("Lady Dalia", { respawn_hours := some 18 }),
    ("General Aqulues", { respawn_hours := some 29 }),
    ("Amentis", { respawn_hours := some 29 }),
    ("Baron Braudmore", { respawn_hours := some 32 }),
    ("Wannitas", { respawn_hours := some 48 }),
    ("Metus", { respawn_hours := some 48 }),
    ("Duplican", { respawn_hours := some 48 }),
    ("Shuliar", { respawn_hours := some 35 }),
    ("Gareth", { respawn_hours := some 32 }),
    ("Titore", { respawn_hours := some 37 }),
    ("Larba", { respawn_hours := some 35 }),
    ("Catena", { respawn_hours := some 35 }),
    ("Secreta", { respawn_hours := some 62 }),
    ("Ordo", { respawn_hours := some 62 }),
    ("Asta", { respawn_hours := some 62 }),
    ("Supore", { respawn_hours := some 62 }),
    ("Clemantis", { schedule := some [("Monday", "11:30"), ("Thursday", "19:00")] }),
    ("Saphirus", { schedule := some [("Sunday", "17:00"), ("Tuesday", "11:30")] }),
    ("Neutro", { schedule := some [("Tuesday", "19:00"), ("Thursday", "11:30")] }),
    ("Thymele", { schedule := some [("Monday", "19:00"), ("Wednesday", "11:30")] }),
    ("Milavy", { schedule := some [("Saturday", "15:00")] }),
    ("Ringor", { schedule := some [("Saturday", "17:00")] }),
    ("Roderick", { schedule := some [("Friday", "19:00")] }),
    ("Auruaq", { schedule := some [("Wednesday", "21:00"), ("Friday", "22:00")] }),
    ("Chaiflock", { schedule := some [("Saturday", "22:00")] }),
    ("Benji", { schedule := some [("Sunday", "21:00")] }) ]

/-- Lookup `WEEKDAY_MAP[day_name]`; `none` models the `KeyError` on an unknown name. -/
def WEEKDAY_MAP (d : String) : Option Int :=
  if d = "Monday" then some 0
  else if d = "Tuesday" then some 1
  else if d = "Wednesday" then some 2
  else if d = "Thursday" then some 3
  else if d = "Friday" then some 4
  else if d = "Saturday" then some 5
  else if d = "Sunday" then some 6
  else none

/-- Decimal digit value of a character (partial inverse of `digitChar`). -/
def charDigit (c : Char) : Nat := c.toNat - 48

/-- Python `int(s)` on a non-negative decimal string (digits only, non-empty);
`none` models the `ValueError` on anything else. -/
def parseDigits (l : List Char) : Option Nat :=
  if !l.isEmpty && l.all Char.isDigit then
    some (l.foldl (fun a c => a * 10 + charDigit c) 0)
  else none

/-- Split a character list at each `':'`, modelling `str.split(":")`. -/
def splitColon : List Char → List (List Char)
  | [] => [[]]
  | c :: cs =>
    if c = ':' then [] :: splitColon cs
    else
      match splitColon cs with
      | [] => [[c]]
      | g :: gs => (c :: g) :: gs

/-- Unpacking `hour, minute = map(int, time_str.split(":"))`: succeeds exactly when the
string is two `int`-parsable fields separated by one colon. -/
def parseTime (s : String) : Option (Nat × Nat) :=
  match splitColon s.toList with
  | [a, b] =>
    match parseDigits a, parseDigits b with
    | some h, some m => some (h, m)
    | _, _ => none
  | _ => none

/-- Function `next_weekday_time(day_name, time_str)` with the ambient
`datetime.now(LOCAL_TZ)` made an explicit argument `now` (seconds).
`candidate` is `now` with hour/minute replaced and seconds zeroed
(`now.replace(...)`, which requires a valid hour < 24 and minute < 60);
`days_ahead = (target_weekday - candidate.weekday()) % 7`, bumped to 7 when
zero and `candidate <= now`.  `none` models the exceptions raised on an
unknown weekday name, an unparsable time string, or an out-of-range
hour/minute. -/
def next_weekday_time (day_name time_str : String) (now : Int) : Option Int :=
  match WEEKDAY_MAP day_name, parseTime time_str with
  | some target_weekday, some (hour, minute) =>
    if hour < 24 ∧ minute < 60 then
      let candidate : Int := (now / 86400) * 86400 + (hour : Int) * 3600 + (minute : Int) * 60
      let d0 : Int := (target_weekday - (candidate / 86400) % 7) % 7
      let days_ahead : Int := if d0 = 0 ∧ candidate ≤ now then 7 else d0
      some (candidate + days_ahead * 86400)
    else none
  | _, _ => none

/-- Sentinel `datetime.max` in the second-count embedding: 9999-12-31 23:59:59 counted
from the Monday epoch 0001-01-01 00:00:00 (3652058 whole days plus 86399 s). -/
def datetime_max : Int := 3652058 * 86400 + 86399

/-- A Python list comprehension `[f x for x in l]` in which `f` may raise:
`none` as soon as any element raises. -/
def optionMapList {α β : Type} (f : α → Option β) : List α → Option (List β)
  | [] => some []
  | a :: l =>
    match f a, optionMapList f l with
    | some b, some bs => some (b :: bs)
    | _, _ => none

/-- Python `min(list)`; `none` models the `ValueError` on an empty list. -/
def listMin : List Int → Option Int
  | [] => none
  | x :: xs => some (xs.foldl min x)

/-- The tail of `compute_next_spawn` reached when neither the skip guard nor
an active explicit `next_spawn` returned: the schedule branch, else
`datetime.max`. -/
def schedule_or_max (data : BossState) (now : Int) : Option Int :=
  match data.schedule with
  | some slots =>
    (optionMapList (fun p => next_weekday_time p.1 p.2 now) slots).bind listMin
  | none => some datetime_max

/-- Registry of one guild: `boss_data[gid]`. -/
abbrev Registry := List (String × BossState)

/-- The body of `compute_next_spawn` once `data` has been fetched: the skip
guard, the active-override check (`isinstance(ns, datetime) and ns > now`),
then `schedule_or_max`. -/
def compute_from (data : BossState) (now : Int) : Option Int :=
  if data.skipped then some datetime_max
  else
    match data.next_spawn with
    | some ns => if now < ns then some ns else schedule_or_max data now
    | none => schedule_or_max data now

/-- Function `compute_next_spawn` after `ensure_guild`, acting on the guild's own
registry: `data = boss_data[gid].get(boss_name, {})`, then the four-step
resolution.  `none` models an exception escaping (only possible from the
schedule branch). -/
def compute_next_spawn_in (reg : Registry) (name : String) (now : Int) : Option Int :=
  compute_from ((lookupA reg name).getD emptyState) now

/-- The whole in-memory store `boss_data`: guild id → registry. -/
abbrev BossData := List (String × Registry)

/-- One fresh `BossState` built by `ensure_guild` from a catalog entry. -/
def init_boss (d : CatalogEntry) : BossState :=
  { next_spawn := none, auto := false, skipped := false,
    respawn_hours := d.respawn_hours, schedule := d.schedule }

/-- The registry `ensure_guild` materializes for a new guild: one state per
catalog entry, in catalog order. -/
def initRegistry : Registry :=
  default_bosses.map (fun p => (p.1, init_boss p.2))

/-- Function `ensure_guild(guild_id)`: add a fully populated registry when the guild id
is absent; no-op otherwise.  A new dict key lands at the end. -/
def ensure_guild (bd : BossData) (gid : String) : BossData :=
  match lookupA bd gid with
  | some _ => bd
  | none => bd ++ [(gid, initRegistry)]

/-- Function `compute_next_spawn(guild_id, boss_name)` as a function of the store:
runs `ensure_guild` first, then resolves inside that guild's registry.
Returns the (possibly extended) store together with the result. -/
def compute_next_spawn (bd : BossData) (gid name : String) (now : Int) :
    BossData × Option Int :=
  let bd' := ensure_guild bd gid
  (bd', compute_next_spawn_in ((lookupA bd' gid).getD []) name now)

/-- The 3-key sort tuple of `get_sorted_boss_list`'s `sort_key`, with the
exception-free spawn value (the guard in `get_sorted_boss_list` ensures the
default is never used). -/
def sort_key (reg : Registry) (now : Int) (item : String × BossState) :
    Nat × Nat × Int :=
  ((if item.2.skipped then 1 else 0),
   (if item.2.next_spawn = none ∧ item.2.schedule = none then 1 else 0),
   (compute_next_spawn_in reg item.1 now).getD 0)

/-- Lexicographic ≤ on the 3-key tuples, as Python compares key tuples. -/
def tupleLE (a b : Nat × Nat × Int) : Bool :=
  a.1 < b.1 ∨ (a.1 = b.1 ∧ (a.2.1 < b.2.1 ∨ (a.2.1 = b.2.1 ∧ a.2.2 ≤ b.2.2)))

/-- Function `get_sorted_boss_list` on one guild's registry: a stable sort of the
registry items by `sort_key`.  `none` models an exception raised by
`compute_next_spawn` while sorting. -/
def get_sorted_boss_list (reg : Registry) (now : Int) :
    Option (List (String × BossState)) :=
  if reg.all (fun it => (compute_next_spawn_in reg it.1 now).isSome) then
    some (reg.mergeSort (fun a b => tupleLE (sort_key reg now a) (sort_key reg now b)))
  else none

/-- The per-boss body of the `/skipall` loop: cooldown bosses get their timer
cleared and `skipped` set; others are untouched. -/
def skipall_boss (b : BossState) : BossState :=
  if b.respawn_hours.isSome then
    { b with next_spawn := none, auto := false, skipped := true }
  else b

/-- Command `/skipall` on one guild's registry. -/
def skipall (reg : Registry) : Registry :=
  reg.map (fun p => (p.1, skipall_boss p.2))

/-- The per-boss body of the `/maintenance` loop: every boss is reset to
alive with no timer and no flags. -/
def maintenance_boss (b : BossState) : BossState :=
  { b with next_spawn := none, auto := false, skipped := false }

/-- Command `/maintenance` on one guild's registry. -/
def maintenance (reg : Registry) : Registry :=
  reg.map (fun p => (p.1, maintenance_boss p.2))

/-- Reset button `BossButton.callback` state change: look the boss up
(`boss_data[gid][name]`, `none` models the `KeyError` on a missing name);
when it has `respawn_hours`, set `next_spawn = now + respawn_hours` and clear
both flags; otherwise leave the registry unchanged. -/
def resetBoss (reg : Registry) (name : String) (now : Int) : Option Registry :=
  match lookupA reg name with
  | none => none
  | some boss =>
    match boss.respawn_hours with
    | some h =>
      some (updateA reg name
        { boss with next_spawn := some (now + h * 3600), auto := false, skipped := false })
    | none => some reg

/-- Outcome of the `/setkilltime` command: the registry state after the
handler returns, and whether the boss was found (on `false` the handler
reported "not found" and returned before mutating anything). -/
structure SetKillResult where
  reg : Registry
  found : Bool
deriving Repr

/-- Command `/setkilltime boss hours minutes`: reject unknown names without touching
state; otherwise set `next_spawn = now + hours + minutes` and clear both
flags. -/
def setkilltime (reg : Registry) (boss : String) (hours minutes : Int)
    (now : Int) : SetKillResult :=
  match lookupA reg boss with
  | none => { reg := reg, found := false }
  | some b =>
    { reg := updateA reg boss
        { b with next_spawn := some (now + hours * 3600 + minutes * 60),
                 auto := false, skipped := false },
      found := true }

/-- Decimal digit characters (inverse of `charDigit` on 0–9). -/
def digitChar : Nat → Char
  | 0 => '0' | 1 => '1' | 2 => '2' | 3 => '3' | 4 => '4'
  | 5 => '5' | 6 => '6' | 7 => '7' | 8 => '8' | 9 => '9'
  | _ => '?'

/-- Decimal rendering of a natural number (most significant digit first). -/
def natDigitList (n : Nat) : List Char :=
  if n = 0 then ['0'] else ((Nat.digits 10 n).map digitChar).reverse

/-- Serialization `datetime.isoformat()` in the embedding: an aware local datetime is its
signed second count rendered in decimal (Manila is a fixed-offset zone, so
the textual form determines the instant exactly and vice versa). -/
def dtToISO (t : Int) : String := ⟨if t < 0 then '-' :: natDigitList t.natAbs else natDigitList t.natAbs⟩

/-- Parsing `datetime.fromisoformat` followed by `astimezone(LOCAL_TZ)` (an identity
here): parse the signed decimal second count; `none` models the exception on
a malformed string. -/
def dtFromISO (s : String) : Option Int :=
  match s.data with
  | [] => none
  | c :: rest =>
    if c = '-' then (parseDigits rest).map (fun n => -(Int.ofNat n))
    else (parseDigits (c :: rest)).map (fun n => Int.ofNat n)

/-- One boss record as held in `boss_data.json`: `next_spawn` as a string (or
absent), everything else verbatim. -/
structure StoredBoss where
  next_spawn : Option String
  auto : Bool
  skipped : Bool
  respawn_hours : Option Int
  schedule : Option (List (String × String))
deriving Repr, DecidableEq

/-- The per-boss body of `save_boss_data`: copy the record, turning a datetime
`next_spawn` into its ISO string. -/
def save_boss (b : BossState) : StoredBoss :=
  { next_spawn := b.next_spawn.map dtToISO,
    auto := b.auto, skipped := b.skipped,
    respawn_hours := b.respawn_hours, schedule := b.schedule }

/-- The per-boss body of `load_boss_data`: copy the record; a string
`next_spawn` is parsed, and on failure replaced by `None`. -/
def load_boss (s : StoredBoss) : BossState :=
  { next_spawn := match s.next_spawn with
      | none => none
      | some str => dtFromISO str,
    auto := s.auto, skipped := s.skipped,
    respawn_hours := s.respawn_hours, schedule := s.schedule }

/-- The stored form of the whole registry file. -/
abbrev StoredData := List (String × List (String × StoredBoss))

/-- Function `save_boss_data()` applied to an in-memory store. -/
def save_boss_data (bd : BossData) : StoredData :=
  bd.map (fun g => (g.1, g.2.map (fun p => (p.1, save_boss p.2))))

/-- Function `load_boss_data()` applied to a parsed file. -/
def load_boss_data (sd : StoredData) : BossData :=
  sd.map (fun g => (g.1, g.2.map (fun p => (p.1, load_boss p.2))))

/-! ## Helper lemmas -/

theorem lookupA_map {α β : Type} (f : α → β) (l : List (String × α)) (k : String) :
    lookupA (l.map (fun p => (p.1, f p.2))) k = (lookupA l k).map f := by
  induction l with
  | nil => rfl
  | cons p rest ih =>
    by_cases h : p.1 = k <;> simp [lookupA, h, ih]

theorem lookupA_append_some {α : Type} {l l' : List (String × α)} {k : String}
    {v : α} (h : lookupA l k = some v) : lookupA (l ++ l') k = some v := by
  induction l with
  | nil => simp [lookupA] at h
  | cons p rest ih =>
    by_cases hp : p.1 = k <;> simp_all [lookupA, hp]

theorem lookupA_updateA_self {α : Type} {l : List (String × α)} {k : String}
    {v : α} (w : α) (h : lookupA l k = some v) :
    lookupA (updateA l k w) k = some w := by
  induction l with
  | nil => simp [lookupA] at h
  | cons p rest ih =>
    by_cases hp : p.1 = k
    · simp [lookupA, updateA, hp]
    · simp only [lookupA, updateA, hp, if_false, List.map_cons] at h ⊢
      simpa [lookupA, hp] using ih h

theorem lookupA_updateA_ne {α : Type} (l : List (String × α)) (k m : String)
    (v : α) (h : m ≠ k) : lookupA (updateA l k v) m = lookupA l m := by
  induction l with
  | nil => rfl
  | cons p rest ih =>
    simp only [updateA, List.map_cons]
    by_cases hp : p.1 = k
    · rw [if_pos hp]
      have h1 : p.1 ≠ m := fun hh => h (hh ▸ hp)
      simp only [lookupA]
      rw [if_neg h1, if_neg h1]
      exact ih
    · rw [if_neg hp]
      simp only [lookupA]
      by_cases hm : p.1 = m
      · rw [if_pos hm, if_pos hm]
      · rw [if_neg hm, if_neg hm]
        exact ih

theorem foldl_min_facts : ∀ (xs : List Int) (x : Int),
    xs.foldl min x ∈ x :: xs ∧ xs.foldl min x ≤ x ∧ ∀ y ∈ xs, xs.foldl min x ≤ y
  | [], x => by simp
  | y :: ys, x => by
    obtain ⟨h1, h2, h3⟩ := foldl_min_facts ys (min x y)
    simp only [List.foldl_cons]
    refine ⟨?_, ?_, ?_⟩
    · rcases List.mem_cons.mp h1 with h | h
      · rcases min_choice x y with hm | hm <;> rw [h, hm] <;> simp
      · simp [h]
    · exact le_trans h2 (min_le_left _ _)
    · intro z hz
      rcases List.mem_cons.mp hz with hz | hz
      · subst hz
        exact le_trans h2 (min_le_right _ _)
      · exact h3 _ hz

theorem listMin_spec {l : List Int} {m : Int} (h : listMin l = some m) :
    m ∈ l ∧ ∀ y ∈ l, m ≤ y := by
  cases l with
  | nil => simp [listMin] at h
  | cons x xs =>
    simp only [listMin, Option.some.injEq] at h
    subst h
    obtain ⟨h1, h2, h3⟩ := foldl_min_facts xs x
    refine ⟨h1, ?_⟩
    intro z hz
    rcases List.mem_cons.mp hz with hz | hz
    · subst hz
      exact h2
    · exact h3 _ hz

theorem nwt_arith (now : Int) (hh mm : Nat) (w t : Int)
    (h24 : hh < 24) (m60 : mm < 60) (hw0 : 0 ≤ w) (hw1 : w < 7)
    (ht : t = (now / 86400) * 86400 + (hh : Int) * 3600 + (mm : Int) * 60 +
      (if (w - (((now / 86400) * 86400 + (hh : Int) * 3600 + (mm : Int) * 60) / 86400) % 7) % 7 = 0 ∧
          (now / 86400) * 86400 + (hh : Int) * 3600 + (mm : Int) * 60 ≤ now
       then (7 : Int)
       else (w - (((now / 86400) * 86400 + (hh : Int) * 3600 + (mm : Int) * 60) / 86400) % 7) % 7) * 86400) :
    now < t ∧ (t / 86400) % 7 = w ∧ t % 86400 = (hh : Int) * 3600 + (mm : Int) * 60 ∧
      ((now / 86400) % 7 = w ∧ now % 86400 = (hh : Int) * 3600 + (mm : Int) * 60 → t = now + 7 * 86400) := by
  split_ifs at ht with hc
  · subst ht
    omega
  · subst ht
    omega

/-! ## Claim theorems -/

/-- C2: for every weekday name and valid time-of-day, `next_weekday_time`
returns a timestamp on the requested weekday (`(t / 86400) % 7 = w`) at the
requested time-of-day (`t % 86400`), strictly after `now`; and when `now`
falls exactly on the target weekday/time instant the result is seven days
later.  In particular the result is never in the past and never equal to
`now`. -/
theorem claim_C2 (day ts : String) (now : Int) (w : Int) (hh mm : Nat)
    (hW : WEEKDAY_MAP day = some w) (hT : parseTime ts = some (hh, mm))
    (h24 : hh < 24) (m60 : mm < 60) :
    ∃ t, next_weekday_time day ts now = some t ∧ now < t ∧
      (t / 86400) % 7 = w ∧ t % 86400 = (hh : Int) * 3600 + (mm : Int) * 60 ∧
      ((now / 86400) % 7 = w ∧ now % 86400 = (hh : Int) * 3600 + (mm : Int) * 60 →
        t = now + 7 * 86400) := by
  have hw : 0 ≤ w ∧ w < 7 := by
    unfold WEEKDAY_MAP at hW
    split_ifs at hW <;> simp_all <;> omega
  simp only [next_weekday_time, hW, hT]
  rw [if_pos (show hh < 24 ∧ mm < 60 from ⟨h24, m60⟩)]
  refine ⟨_, rfl, ?_⟩
  exact nwt_arith now hh mm w _ h24 m60 hw.1 hw.2 rfl

/-- Witness for C2: Monday 11:30 queried from the epoch instant
(a Monday midnight). -/
theorem claim_C2_witness :
    ∃ t, next_weekday_time "Monday" "11:30" 0 = some t ∧ (0 : Int) < t ∧
      (t / 86400) % 7 = 0 ∧ t % 86400 = (11 : Nat) * 3600 + ((30 : Nat) : Int) * 60 ∧
      (((0 : Int) / 86400) % 7 = 0 ∧ (0 : Int) % 86400 = (11 : Nat) * 3600 + ((30 : Nat) : Int) * 60 →
        t = 0 + 7 * 86400) :=
  claim_C2 "Monday" "11:30" 0 0 11 30 rfl rfl (by decide) (by decide)

theorem compute_from_sched (data : BossState) (now : Int)
    (hsk : data.skipped = false)
    (hstale : ∀ t, data.next_spawn = some t → t ≤ now) :
    compute_from data now = schedule_or_max data now := by
  cases hns : data.next_spawn with
  | none => simp [compute_from, hsk, hns]
  | some ns =>
    have := hstale ns hns
    simp [compute_from, hsk, hns, show ¬ now < ns by omega]

/-- C1: `compute_next_spawn` follows the four-step rule.  With
`data = boss_data[gid].get(boss_name, {})`: (1) a skipped boss yields the
indefinite sentinel `datetime.max`; (2) otherwise an explicit `next_spawn`
strictly after `now` is returned as is; (3) otherwise, when the entry has a
schedule whose slots all resolve, the result is the minimum of the
`next_weekday_time` values over all configured (weekday, time) pairs;
(4) otherwise (cooldown boss with no active override) the sentinel. -/
theorem claim_C1 (reg : Registry) (name : String) (now : Int) :
    (((lookupA reg name).getD emptyState).skipped = true →
      compute_next_spawn_in reg name now = some datetime_max) ∧
    (∀ t, ((lookupA reg name).getD emptyState).skipped = false →
      ((lookupA reg name).getD emptyState).next_spawn = some t → now < t →
      compute_next_spawn_in reg name now = some t) ∧
    (∀ slots vals, ((lookupA reg name).getD emptyState).skipped = false →
      (∀ t, ((lookupA reg name).getD emptyState).next_spawn = some t → t ≤ now) →
      ((lookupA reg name).getD emptyState).schedule = some slots →
      optionMapList (fun p => next_weekday_time p.1 p.2 now) slots = some vals →
      vals ≠ [] →
      ∃ t, compute_next_spawn_in reg name now = some t ∧ t ∈ vals ∧ ∀ u ∈ vals, t ≤ u) ∧
    (((lookupA reg name).getD emptyState).skipped = false →
      (∀ t, ((lookupA reg name).getD emptyState).next_spawn = some t → t ≤ now) →
      ((lookupA reg name).getD emptyState).schedule = none →
      compute_next_spawn_in reg name now = some datetime_max) := by
  refine ⟨?_, ?_, ?_, ?_⟩
  · intro hsk
    simp [compute_next_spawn_in, compute_from, hsk]
  · intro t hsk hns hlt
    simp [compute_next_spawn_in, compute_from, hsk, hns, hlt]
  · intro slots vals hsk hstale hsched hmap hne
    rw [compute_next_spawn_in, compute_from_sched _ _ hsk hstale]
    simp only [schedule_or_max, hsched, hmap, Option.bind_some]
    cases vals with
    | nil => exact absurd rfl hne
    | cons v vs =>
      refine ⟨vs.foldl min v, rfl, ?_⟩
      exact listMin_spec rfl
  · intro hsk hstale hsched
    rw [compute_next_spawn_in, compute_from_sched _ _ hsk hstale]
    simp only [schedule_or_max, hsched]

/-- Four concrete registries, one per branch of the four-step rule. -/
def regSkipW : Registry :=
  [("S", { next_spawn := none, auto := false, skipped := true,
           respawn_hours := some 10, schedule := none })]

def regOverrideW : Registry :=
  [("A", { next_spawn := some 100, auto := false, skipped := false,
           respawn_hours := some 10, schedule := none })]

def regSchedW : Registry :=
  [("C", { next_spawn := none, auto := false, skipped := false,
           respawn_hours := none, schedule := some [("Monday", "11:30")] })]

def regAliveW : Registry :=
  [("V", { next_spawn := none, auto := false, skipped := false,
           respawn_hours := some 10, schedule := none })]

/-- Witness for C1: each of the four steps exercised on a concrete registry. -/
theorem claim_C1_witness :
    compute_next_spawn_in regSkipW "S" 0 = some datetime_max ∧
    compute_next_spawn_in regOverrideW "A" 0 = some 100 ∧
    (∃ t, compute_next_spawn_in regSchedW "C" 0 = some t ∧
      t ∈ [(41400 : Int)] ∧ ∀ u ∈ [(41400 : Int)], t ≤ u) ∧
    compute_next_spawn_in regAliveW "V" 0 = some datetime_max :=
  ⟨(claim_C1 regSkipW "S" 0).1 (by decide),
   (claim_C1 regOverrideW "A" 0).2.1 100 (by decide) (by decide) (by decide),
   (claim_C1 regSchedW "C" 0).2.2.1 [("Monday", "11:30")] [41400] (by decide)
     (by intro t h; simp [regSchedW, lookupA] at h)
     (by decide) (by decide) (by decide),
   (claim_C1 regAliveW "V" 0).2.2.2 (by decide)
     (by intro t h; simp [regAliveW, lookupA] at h)
     (by decide)⟩

/-- C10: `compute_next_spawn` is total for arbitrary boss names.  For a name
absent from the community's registry it returns the indefinite sentinel
(`datetime.max`), and the store it returns leaves every pre-existing guild's
registry untouched (`ensure_guild` only ever appends a new guild). -/
theorem claim_C10 (bd : BossData) (gid name : String) (now : Int)
    (h : lookupA ((lookupA (ensure_guild bd gid) gid).getD []) name = none) :
    (compute_next_spawn bd gid name now).2 = some datetime_max ∧
    ∀ gid' reg, lookupA bd gid' = some reg →
      lookupA (compute_next_spawn bd gid name now).1 gid' = some reg := by
  constructor
  · show compute_next_spawn_in ((lookupA (ensure_guild bd gid) gid).getD []) name now
      = some datetime_max
    rw [compute_next_spawn_in, h]
    rfl
  · intro gid' reg hg
    show lookupA (ensure_guild bd gid) gid' = some reg
    cases hgg : lookupA bd gid with
    | some r => simpa [ensure_guild, hgg] using hg
    | none =>
      simp only [ensure_guild, hgg]
      exact lookupA_append_some hg

/-- Witness for C10: an unknown boss name against a store holding one
pre-existing guild. -/
theorem claim_C10_witness :
    (compute_next_spawn [("h", regAliveW)] "g" "Nope" 5).2 = some datetime_max ∧
    ∀ gid' reg, lookupA [("h", regAliveW)] gid' = some reg →
      lookupA (compute_next_spawn [("h", regAliveW)] "g" "Nope" 5).1 gid' = some reg :=
  claim_C10 [("h", regAliveW)] "g" "Nope" 5 (by decide)

theorem digit_mem_digits {n d : Nat} (h : d ∈ Nat.digits 10 n) : d < 10 :=
  Nat.digits_lt_base (by norm_num) h

theorem digitChar_isDigit {d : Nat} (h : d < 10) : (digitChar d).isDigit = true := by
  interval_cases d <;> decide

theorem charDigit_digitChar {d : Nat} (h : d < 10) : charDigit (digitChar d) = d := by
  interval_cases d <;> decide

theorem foldr_map_digitChar (ds : List Nat) (h : ∀ d ∈ ds, d < 10) :
    (ds.map digitChar).foldr (fun x y => y * 10 + charDigit x) 0
      = (Nat.ofDigits 10 ds : Nat) := by
  induction ds with
  | nil => simp [Nat.ofDigits]
  | cons d ds ih =>
    simp only [List.map_cons, List.foldr_cons, Nat.ofDigits_cons]
    rw [ih (fun x hx => h x (List.mem_cons_of_mem _ hx)),
      charDigit_digitChar (h d (List.mem_cons_self _ _))]
    ring

theorem natDigitList_isDigit {n : Nat} : ∀ c ∈ natDigitList n, c.isDigit = true := by
  intro c hc
  by_cases h0 : n = 0
  · subst h0
    rw [show natDigitList 0 = ['0'] from rfl, List.mem_singleton] at hc
    subst hc
    decide
  · rw [natDigitList, if_neg h0, List.mem_reverse] at hc
    obtain ⟨d, hd, rfl⟩ := List.mem_map.mp hc
    exact digitChar_isDigit (digit_mem_digits hd)

theorem natDigitList_ne_nil (n : Nat) : natDigitList n ≠ [] := by
  by_cases h0 : n = 0
  · subst h0
    decide
  · rw [natDigitList, if_neg h0]
    simp [Nat.digits_ne_nil_iff_ne_zero.mpr h0]

theorem parseDigits_natDigitList (n : Nat) : parseDigits (natDigitList n) = some n := by
  by_cases h0 : n = 0
  · subst h0
    decide
  · have hne : (natDigitList n).isEmpty = false :=
      List.isEmpty_eq_false.mpr (natDigitList_ne_nil n)
    have hdig : (natDigitList n).all Char.isDigit = true :=
      List.all_eq_true.mpr natDigitList_isDigit
    rw [parseDigits, if_pos (by rw [hne, hdig]; rfl)]
    rw [natDigitList, if_neg h0, List.foldl_reverse,
      foldr_map_digitChar _ (fun d hd => digit_mem_digits hd), Nat.ofDigits_digits]

theorem dtFromISO_dtToISO (t : Int) : dtFromISO (dtToISO t) = some t := by
  by_cases ht : t < 0
  · have h1 : dtToISO t = ⟨'-' :: natDigitList t.natAbs⟩ := by
      rw [dtToISO, if_pos ht]
    rw [h1]
    simp only [dtFromISO]
    rw [if_pos trivial, parseDigits_natDigitList, Option.map_some']
    congr 1
    rw [Int.ofNat_eq_natCast]
    omega
  · have h1 : dtToISO t = ⟨natDigitList t.natAbs⟩ := by
      rw [dtToISO, if_neg ht]
    cases hnl : natDigitList t.natAbs with
    | nil => exact absurd hnl (natDigitList_ne_nil _)
    | cons c rest =>
      have hcd : c.isDigit = true := natDigitList_isDigit c (hnl ▸ List.mem_cons_self c rest)
      have hcne : ¬ (c = '-') := fun hh => by
        rw [hh] at hcd
        exact absurd hcd (by decide)
      rw [h1, hnl]
      simp only [dtFromISO]
      rw [if_neg hcne, ← hnl, parseDigits_natDigitList, Option.map_some']
      congr 1
      rw [Int.ofNat_eq_natCast]
      omega

theorem load_save_boss (b : BossState) : load_boss (save_boss b) = b := by
  cases b with
  | mk ns au sk rh sch =>
    cases ns with
    | none => rfl
    | some t => simp [save_boss, load_boss, dtFromISO_dtToISO]

/-- C4: saving the full store and loading it back reproduces the store
exactly — in particular every boss's mutable fields (`next_spawn`, `auto`,
`skipped`) are unchanged, for both absent and present `next_spawn`. -/
theorem claim_C4 (bd : BossData) : load_boss_data (save_boss_data bd) = bd := by
  have inner : ∀ (l : List (String × BossState)),
      (l.map (fun p => (p.1, save_boss p.2))).map (fun p => (p.1, load_boss p.2)) = l := by
    intro l
    induction l with
    | nil => rfl
    | cons p rest ih => simp [ih, load_save_boss]
  unfold load_boss_data save_boss_data
  induction bd with
  | nil => rfl
  | cons g rest ih =>
    simp only [List.map_cons, List.cons.injEq]
    exact ⟨by rw [inner g.2], ih⟩

/-- C5: a per-boss `next_spawn` string that fails to parse is replaced by
`None` for that boss only (its other fields intact); loading is total, so the
malformed record is never fatal, and every other record of the stored
registry loads by the same pointwise rule with its values intact. -/
theorem claim_C5 (sd : StoredData) (gid name str : String)
    (sreg : List (String × StoredBoss)) (s : StoredBoss)
    (hg : lookupA sd gid = some sreg)
    (hb : lookupA sreg name = some s)
    (hstr : s.next_spawn = some str)
    (hbad : dtFromISO str = none) :
    ∃ lreg, lookupA (load_boss_data sd) gid = some lreg ∧
      lookupA lreg name = some { next_spawn := none, auto := s.auto,
                                 skipped := s.skipped,
                                 respawn_hours := s.respawn_hours,
                                 schedule := s.schedule } ∧
      ∀ name' s', lookupA sreg name' = some s' →
        lookupA lreg name' = some (load_boss s') := by
  refine ⟨sreg.map (fun p => (p.1, load_boss p.2)), ?_, ?_, ?_⟩
  · rw [load_boss_data, lookupA_map (fun r : List (String × StoredBoss) =>
      r.map (fun p => (p.1, load_boss p.2))), hg, Option.map_some']
  · rw [lookupA_map load_boss, hb, Option.map_some']
    simp only [load_boss, hstr, hbad]
  · intro name' s' h'
    rw [lookupA_map load_boss, h', Option.map_some']

/-- A concrete stored file: one guild holding one record with an unparsable
timestamp and one well-formed record. -/
def storedW : StoredData :=
  [("g", [("Bad", { next_spawn := some "garbage", auto := false, skipped := true,
                    respawn_hours := some 10, schedule := none }),
          ("Good", { next_spawn := some "100", auto := true, skipped := false,
                     respawn_hours := none,
                     schedule := some [("Monday", "11:30")] })])]

/-- Witness for C5: the malformed record loads as `next_spawn = none`, the
well-formed sibling record loads intact. -/
theorem claim_C5_witness :
    ∃ lreg, lookupA (load_boss_data storedW) "g" = some lreg ∧
      lookupA lreg "Bad" = some { next_spawn := none, auto := false,
                                  skipped := true, respawn_hours := some 10,
                                  schedule := none } ∧
      ∀ name' s', lookupA ((storedW.head (by decide)).2) name' = some s' →
        lookupA lreg name' = some (load_boss s') :=
  claim_C5 storedW "g" "Bad" "garbage" ((storedW.head (by decide)).2)
    { next_spawn := some "garbage", auto := false, skipped := true,
      respawn_hours := some 10, schedule := none }
    (by decide) (by decide) rfl (by decide)

/-- C6: resetting a cooldown boss (one with `respawn_hours`) sets its
`next_spawn` to `now + respawn_hours` (hours in seconds) and clears `auto`
and `skipped`, leaving every other boss untouched; on a schedule-only boss
the button callback mutates nothing. -/
theorem claim_C6 (reg : Registry) (name : String) (now : Int) (b : BossState)
    (hb : lookupA reg name = some b) :
    (∀ h, b.respawn_hours = some h →
      ∃ reg', resetBoss reg name now = some reg' ∧
        lookupA reg' name =
          some { b with next_spawn := some (now + h * 3600),
                        auto := false, skipped := false } ∧
        ∀ m, m ≠ name → lookupA reg' m = lookupA reg m) ∧
    (b.respawn_hours = none → resetBoss reg name now = some reg) := by
  constructor
  · intro h hh
    have hr : resetBoss reg name now =
        some (updateA reg name
          { b with next_spawn := some (now + h * 3600),
                   auto := false, skipped := false }) := by
      simp only [resetBoss, hb, hh]
    exact ⟨_, hr, lookupA_updateA_self _ hb, fun m hm => lookupA_updateA_ne _ _ _ _ hm⟩
  · intro hh
    simp only [resetBoss, hb, hh]

/-- Witness for C6: resetting the 10-hour boss Venatus, and a no-op reset of
the schedule-only boss Clemantis. -/
theorem claim_C6_witness :
    (∃ reg', resetBoss initRegistry "Venatus" 0 = some reg' ∧
      lookupA reg' "Venatus" =
        some { next_spawn := some (0 + 10 * 3600), auto := false,
               skipped := false, respawn_hours := some 10, schedule := none } ∧
      ∀ m, m ≠ "Venatus" → lookupA reg' m = lookupA initRegistry m) ∧
    resetBoss initRegistry "Clemantis" 5 = some initRegistry :=
  ⟨(claim_C6 initRegistry "Venatus" 0
      { next_spawn := none, auto := false, skipped := false,
        respawn_hours := some 10, schedule := none } (by decide)).1 10 rfl,
   (claim_C6 initRegistry "Clemantis" 5
      { next_spawn := none, auto := false, skipped := false,
        respawn_hours := none,
        schedule := some [("Monday", "11:30"), ("Thursday", "19:00")] }
      (by decide)).2 rfl⟩

/-- C7: the `/setkilltime` command on an unknown name reports not-found and changes no
state; on a known boss it sets `next_spawn = now + hours + minutes`, clears
`auto` and `skipped` (even if `skipped` was true), and touches no other
boss. -/
theorem claim_C7 (reg : Registry) (boss : String) (hours minutes now : Int) :
    (lookupA reg boss = none →
      setkilltime reg boss hours minutes now = { reg := reg, found := false }) ∧
    (∀ b, lookupA reg boss = some b →
      ∃ r, setkilltime reg boss hours minutes now = { reg := r, found := true } ∧
        lookupA r boss =
          some { b with next_spawn := some (now + hours * 3600 + minutes * 60),
                        auto := false, skipped := false } ∧
        ∀ m, m ≠ boss → lookupA r m = lookupA reg m) := by
  constructor
  · intro h
    simp only [setkilltime, h]
  · intro b hb
    exact ⟨_, by simp only [setkilltime, hb],
      lookupA_updateA_self _ hb, fun m hm => lookupA_updateA_ne _ _ _ _ hm⟩

/-- A registry in which Ego is currently skipped, to exercise the
"clears `skipped` even if previously true" half of C7. -/
def regEgoSkipped : Registry :=
  [("Ego", { next_spawn := none, auto := false, skipped := true,
             respawn_hours := some 21, schedule := none })]

/-- Witness for C7: the spec scenario `setkilltime("Ego", 2, 30)` on a
registry where Ego is skipped, plus a not-found call. -/
theorem claim_C7_witness :
    (setkilltime regEgoSkipped "Nobody" 1 0 0 =
      { reg := regEgoSkipped, found := false }) ∧
    ∃ r, setkilltime regEgoSkipped "Ego" 2 30 0 = { reg := r, found := true } ∧
      lookupA r "Ego" =
        some { next_spawn := some (0 + 2 * 3600 + 30 * 60), auto := false,
               skipped := false, respawn_hours := some 21, schedule := none } ∧
      ∀ m, m ≠ "Ego" → lookupA r m = lookupA regEgoSkipped m :=
  ⟨(claim_C7 regEgoSkipped "Nobody" 1 0 0).1 (by decide),
   (claim_C7 regEgoSkipped "Ego" 2 30 0).2
     { next_spawn := none, auto := false, skipped := true,
       respawn_hours := some 21, schedule := none } (by decide)⟩

/-- C8: `/skipall` followed by `/maintenance` leaves every boss — cooldown
and schedule alike — with `next_spawn` absent, `auto` false and `skipped`
false, catalog fields and ordering unchanged; applied to a freshly
materialized registry it reproduces that registry exactly. -/
theorem claim_C8 (reg : Registry) :
    maintenance (skipall reg) = reg.map (fun p => (p.1,
      { next_spawn := none, auto := false, skipped := false,
        respawn_hours := p.2.respawn_hours, schedule := p.2.schedule })) ∧
    maintenance (skipall initRegistry) = initRegistry := by
  have key : ∀ b : BossState, maintenance_boss (skipall_boss b) =
      { next_spawn := none, auto := false, skipped := false,
        respawn_hours := b.respawn_hours, schedule := b.schedule } := by
    intro b
    rw [skipall_boss]
    split_ifs <;> rfl
  have h1 : ∀ l : Registry, maintenance (skipall l) = l.map (fun p => (p.1,
      { next_spawn := none, auto := false, skipped := false,
        respawn_hours := p.2.respawn_hours, schedule := p.2.schedule })) := by
    intro l
    rw [maintenance, skipall, List.map_map]
    exact List.map_congr_left (fun p _ => by simp [Function.comp, key])
  refine ⟨h1 reg, ?_⟩
  rw [h1 initRegistry, initRegistry, List.map_map]
  rfl

theorem tupleLE_iff (a b : Nat × Nat × Int) : tupleLE a b = true ↔
    (a.1 < b.1 ∨ (a.1 = b.1 ∧ (a.2.1 < b.2.1 ∨ (a.2.1 = b.2.1 ∧ a.2.2 ≤ b.2.2)))) := by
  simp [tupleLE]

theorem tupleLE_refl (a : Nat × Nat × Int) : tupleLE a a = true := by
  simp [tupleLE]

theorem tupleLE_trans (a b c : Nat × Nat × Int)
    (hab : tupleLE a b = true) (hbc : tupleLE b c = true) : tupleLE a c = true := by
  rw [tupleLE_iff] at hab hbc ⊢
  omega

theorem tupleLE_total (a b : Nat × Nat × Int) : (tupleLE a b || tupleLE b a) = true := by
  rw [Bool.or_eq_true, tupleLE_iff, tupleLE_iff]
  omega

/-- C3: on a registry where every boss's spawn resolves, the sorted view is a
permutation of the whole registry, is ordered ascending by the 3-key tuple
(skippedRank, aliveRank, computed next spawn) — skippedRank 1 iff `skipped`,
aliveRank 1 iff `next_spawn` is absent and the boss has no schedule — and
breaks key ties by the registry's (catalog) iteration order. -/
theorem claim_C3 (reg : Registry) (now : Int)
    (hall : ∀ it ∈ reg, (compute_next_spawn_in reg it.1 now).isSome = true) :
    ∃ l, get_sorted_boss_list reg now = some l ∧
      List.Perm l reg ∧
      l.Pairwise (fun a b =>
        (if a.2.skipped then (1 : Nat) else 0) < (if b.2.skipped then 1 else 0) ∨
        ((if a.2.skipped then (1 : Nat) else 0) = (if b.2.skipped then 1 else 0) ∧
          ((if a.2.next_spawn = none ∧ a.2.schedule = none then (1 : Nat) else 0) <
             (if b.2.next_spawn = none ∧ b.2.schedule = none then 1 else 0) ∨
           ((if a.2.next_spawn = none ∧ a.2.schedule = none then (1 : Nat) else 0) =
              (if b.2.next_spawn = none ∧ b.2.schedule = none then 1 else 0) ∧
            (compute_next_spawn_in reg a.1 now).getD 0 ≤
              (compute_next_spawn_in reg b.1 now).getD 0)))) ∧
      ∀ a b, [a, b].Sublist reg →
        sort_key reg now a = sort_key reg now b → [a, b].Sublist l := by
  have hguard : reg.all (fun it => (compute_next_spawn_in reg it.1 now).isSome) = true :=
    List.all_eq_true.mpr hall
  refine ⟨reg.mergeSort
      (fun a b => tupleLE (sort_key reg now a) (sort_key reg now b)), ?_, ?_, ?_, ?_⟩
  · rw [get_sorted_boss_list, if_pos hguard]
  · exact List.mergeSort_perm reg _
  · have hs := @List.sorted_mergeSort _
      (fun a b => tupleLE (sort_key reg now a) (sort_key reg now b))
      (fun a b c hab hbc => tupleLE_trans _ _ _ hab hbc)
      (fun a b => tupleLE_total _ _) reg
    refine hs.imp ?_
    intro a b hab
    rw [tupleLE_iff] at hab
    simpa [sort_key] using hab
  · intro a b hsub hkey
    refine List.pair_sublist_mergeSort
      (fun a b c hab hbc => tupleLE_trans _ _ _ hab hbc)
      (fun a b => tupleLE_total _ _) ?_ hsub
    rw [hkey]
    exact tupleLE_refl _

/-- A two-boss registry (an override-timed cooldown boss and an alive one)
used to witness the sorting claims. -/
def regSortW : Registry :=
  [("A", { next_spawn := some 100, auto := false, skipped := false,
           respawn_hours := some 10, schedule := none }),
   ("V", { next_spawn := none, auto := false, skipped := false,
           respawn_hours := some 10, schedule := none })]

/-- Witness for C3: the sorted view of a concrete two-boss registry. -/
theorem claim_C3_witness :
    ∃ l, get_sorted_boss_list regSortW 0 = some l ∧
      List.Perm l regSortW ∧
      l.Pairwise (fun a b =>
        (if a.2.skipped then (1 : Nat) else 0) < (if b.2.skipped then 1 else 0) ∨
        ((if a.2.skipped then (1 : Nat) else 0) = (if b.2.skipped then 1 else 0) ∧
          ((if a.2.next_spawn = none ∧ a.2.schedule = none then (1 : Nat) else 0) <
             (if b.2.next_spawn = none ∧ b.2.schedule = none then 1 else 0) ∨
           ((if a.2.next_spawn = none ∧ a.2.schedule = none then (1 : Nat) else 0) =
              (if b.2.next_spawn = none ∧ b.2.schedule = none then 1 else 0) ∧
            (compute_next_spawn_in regSortW a.1 0).getD 0 ≤
              (compute_next_spawn_in regSortW b.1 0).getD 0)))) ∧
      ∀ a b, [a, b].Sublist regSortW →
        sort_key regSortW 0 a = sort_key regSortW 0 b → [a, b].Sublist l :=
  claim_C3 regSortW 0 (by decide)

theorem mergeSort_pair {α : Type} (le : α → α → Bool) (a b : α) :
    List.mergeSort [a, b] le = if le a b then [a, b] else [b, a] := by
  rw [List.mergeSort]
  simp [List.splitInTwo, List.splitAt_eq, List.mergeSort, List.merge]

/-- A cooldown boss whose recorded `next_spawn` is set but already past
(stale) at the observation instant `now = 100`. -/
def xStale : String × BossState :=
  ("X", { next_spawn := some 5, auto := false, skipped := false,
          respawn_hours := some 10, schedule := none })

/-- A cooldown boss with no recorded `next_spawn` at all. -/
def yStale : String × BossState :=
  ("Y", { next_spawn := none, auto := false, skipped := false,
          respawn_hours := some 10, schedule := none })

/-- The registry listing Y before X in iteration order. -/
def regStaleW : Registry := [yStale, xStale]

/-- Counterexample to C3 as stated.  Read aliveRank with "no active
next_spawn" meaning absent-or-stale (a recorded time not strictly after
`now`), as the claim's wording does.  At `now = 100` neither Y (absent) nor
X (stale, 5 ≤ 100) has an active `next_spawn` and neither is a schedule
boss, both are unskipped, and their computed next spawns coincide (both the
sentinel) — so the claim's 3-key tuples tie, and tie-breaking by catalog
iteration order would have to keep Y before X.  The code instead keys
aliveRank on `next_spawn is None`, giving X the smaller key, and its sorted
view is `[X, Y]`, not `[Y, X]`. -/
theorem claim_C3_counterexample :
    ((yStale.2.skipped ↔ xStale.2.skipped) ∧
     (((∀ t ∈ yStale.2.next_spawn, t ≤ (100 : Int)) ∧ yStale.2.schedule = none) ↔
      ((∀ t ∈ xStale.2.next_spawn, t ≤ (100 : Int)) ∧ xStale.2.schedule = none)) ∧
     compute_next_spawn_in regStaleW yStale.1 100 =
       compute_next_spawn_in regStaleW xStale.1 100) ∧
    get_sorted_boss_list regStaleW 100 = some [xStale, yStale] ∧
    [xStale, yStale] ≠ [yStale, xStale] := by
  refine ⟨⟨?_, ?_, ?_⟩, ?_, ?_⟩
  · decide
  · constructor
    · intro _
      refine ⟨?_, rfl⟩
      intro t ht
      simp only [xStale, Option.mem_def, Option.some.injEq] at ht
      omega
    · intro _
      refine ⟨?_, rfl⟩
      intro t ht
      simp [yStale, Option.mem_def] at ht
  · decide
  · rw [get_sorted_boss_list, if_pos (by decide)]
    show some (List.mergeSort [yStale, xStale] _) = _
    rw [mergeSort_pair]
    rw [if_neg (by decide)]
  · decide

/-- C9: in every sorted view the sort actually produces, a boss marked
`skipped` never precedes one that is not skipped: pairwise along the output,
once a skipped boss appears only skipped bosses follow. -/
theorem claim_C9 (reg : Registry) (now : Int) (l : List (String × BossState))
    (h : get_sorted_boss_list reg now = some l) :
    l.Pairwise (fun a b => a.2.skipped = true → b.2.skipped = true) := by
  rw [get_sorted_boss_list] at h
  split_ifs at h with hall
  · rw [Option.some_inj] at h
    subst h
    have hs := @List.sorted_mergeSort _
      (fun a b => tupleLE (sort_key reg now a) (sort_key reg now b))
      (fun a b c hab hbc => tupleLE_trans _ _ _ hab hbc)
      (fun a b => tupleLE_total _ _) reg
    refine hs.imp ?_
    intro a b hab hsk
    by_cases hbs : b.2.skipped = true
    · exact hbs
    · exfalso
      rw [tupleLE_iff] at hab
      simp only [sort_key, hsk, Bool.not_eq_true] at hab
      rw [Bool.not_eq_true] at hbs
      rw [hbs] at hab
      simp only [if_true, if_false, Bool.false_eq_true] at hab
      omega

/-- An already-key-sorted registry with one live and one skipped boss. -/
def regC9W : Registry :=
  [("A", { next_spawn := some 100, auto := false, skipped := false,
           respawn_hours := some 10, schedule := none }),
   ("S", { next_spawn := some 5, auto := false, skipped := true,
           respawn_hours := some 10, schedule := none })]

/-- Witness for C9: the sorted view of `regC9W` keeps the skipped boss last. -/
theorem claim_C9_witness :
    regC9W.Pairwise (fun a b => a.2.skipped = true → b.2.skipped = true) :=
  claim_C9 regC9W 0 regC9W (by
    rw [get_sorted_boss_list, if_pos (by decide)]
    rw [List.mergeSort_of_sorted (by decide)])
